import Mathlib

/-
Verification development for the conversation-history subsystem of the
gemma-chat-app repository (src/modelWorker.ts and src/chatManager.ts).

The worker side (modelWorker.ts) is embedded as pure functions over an
explicit `WorkerState`; asynchronous engine behaviour is represented by an
oracle: a list of interleaving events (fragment callbacks and stop messages
processed between them) followed by the engine outcome.  The UI side
(chatManager.ts) is embedded as pure state transformers over `ChatState`.
-/

namespace GemmaChat

/-- Message role, the `role` string field restricted to the two values the
worker ever stores. -/
inductive Role
  | user
  | assistant
deriving DecidableEq

/-- Flip a role. -/
def Role.other : Role → Role
  | .user => .assistant
  | .assistant => .user

/-- One conversation turn: `{ role, content }`. -/
structure Turn where
  role : Role
  content : String
deriving DecidableEq

/-- Messages posted from the worker to the main thread
(`self.postMessage` calls in modelWorker.ts). -/
inductive WMsg
  | progress (p : Nat) (m : String)
  | ready
  | token (t : String)
  | complete
  | error (e : String)
  | stopped
  | resetComplete
deriving DecidableEq

/-- Messages posted from the main thread to the worker. -/
inductive CMsg
  | init
  | generate (m : String)
  | stop
  | reset
deriving DecidableEq

/-- Terminal events of a generate call per the spec: complete, error, stopped. -/
def isTerminal : WMsg → Bool
  | .complete => true
  | .error _ => true
  | .stopped => true
  | _ => false

/-- JS `list.slice(-n)` for `n > 0`: the last `n` elements (whole list when
shorter). -/
def takeLast (n : Nat) (l : List Turn) : List Turn :=
  l.drop (l.length - n)

/-- modelWorker.ts lines 226-233: push the user turn, push the assistant turn,
then `if (messageHistory.length > 10) messageHistory = messageHistory.slice(-10)`. -/
def commitStep (h : List Turn) (userMessage generatedText : String) : List Turn :=
  let h2 := h ++ [⟨.user, userMessage⟩, ⟨.assistant, generatedText⟩]
  if h2.length > 10 then takeLast 10 h2 else h2

/-- modelWorker.ts line 158: `i % 2 === 0 ? 'user' : 'assistant'`. -/
def expectedRole (i : Nat) : Role :=
  if i % 2 = 0 then .user else .assistant

/-- modelWorker.ts lines 156-166: the validation loop, keeping exactly the
messages whose role equals the expected role at their original index. -/
def validateFrom (i : Nat) : List Turn → List Turn
  | [] => []
  | m :: ms =>
      if m.role = expectedRole i then m :: validateFrom (i + 1) ms
      else validateFrom (i + 1) ms

/-- `validMessages` as computed by the loop starting at index 0. -/
def validMessages (msgs : List Turn) : List Turn :=
  validateFrom 0 msgs

/-- modelWorker.ts lines 145-152: `messageHistory.slice(-6)` plus the new user
message pushed last. -/
def buildMessages (h : List Turn) (userMessage : String) : List Turn :=
  takeLast 6 h ++ [⟨.user, userMessage⟩]

/-- `l.length > 0 && l[l.length-1].role === 'user'`. -/
def lastIsUser (l : List Turn) : Bool :=
  match l.getLast? with
  | some t => t.role = .user
  | none => false

/-- modelWorker.ts lines 168-171: the validated candidate list when non-empty
and ending in a user turn, otherwise the single new user message. -/
def finalMessages (h : List Turn) (userMessage : String) : List Turn :=
  let valid := validMessages (buildMessages h userMessage)
  if lastIsUser valid then valid else [⟨.user, userMessage⟩]

/-- Worker-global mutable state: `isInitialized`/`generator` (set together,
modelled as one flag), `messageHistory`, and `currentAbortController`
(`none` = null, `some b` = a controller whose signal-aborted flag is `b`). -/
structure WorkerState where
  initialized : Bool
  messageHistory : List Turn
  currentAbort : Option Bool
deriving DecidableEq

/-- One interleaving event while a generation is awaiting the engine: either
the engine invokes the per-fragment callback, or the worker event loop
processes a `stop` message between callbacks. -/
inductive GenEvent
  | frag (s : String)
  | stopMsg
deriving DecidableEq

/-- How the engine call ends when no callback raised: the extracted (already
trimmed) assistant text, or a thrown failure. -/
inductive EngineOutcome
  | success (text : String)
  | failure (e : String)
deriving DecidableEq

/-- modelWorker.ts line 221 fallback text (apostrophe spelled out). -/
def apologyText : String := "I apologize, but I could not generate a response."

/-- modelWorker.ts line 184: message of the error thrown by the callback. -/
def abortText : String := "Generation aborted by user"

/-- The generation body from the engine invocation onward (modelWorker.ts
lines 178-244 together with the `stop` case at lines 265-272 for stop messages
processed while the call is awaited).  Returns the final history, the posted
messages, and the final aborted flag of the current controller.

  * callback on a fragment: first checks the abort signal and throws (the
    whole call lands in `catch`, which posts `error`), else posts `token`;
  * a `stop` message: aborts the controller and posts `stopped`;
  * engine end without a throw: on success the text (apology fallback when
    empty) is committed and `complete` posted, on failure `error` is posted. -/
def generationRun (hist : List Turn) (userMessage : String) (aborted : Bool) :
    List GenEvent → EngineOutcome → List Turn × List WMsg × Bool
  | [], .success t =>
      let g := if t = "" then apologyText else t
      (commitStep hist userMessage g, [.complete], aborted)
  | [], .failure e => (hist, [.error e], aborted)
  | .frag s :: rest, oc =>
      if aborted then (hist, [.error abortText], true)
      else
        let r := generationRun hist userMessage false rest oc
        (r.1, .token s :: r.2.1, r.2.2)
  | .stopMsg :: rest, oc =>
      let r := generationRun hist userMessage true rest oc
      (r.1, .stopped :: r.2.1, r.2.2)

/-- The synchronous prefix of `generateResponse` (modelWorker.ts lines
129-204): the only rejection is the uninitialized-model check; otherwise a
fresh unaborted controller replaces the current one and the engine is invoked
with the validated context (returned as `some context`). -/
def generateEntry (st : WorkerState) (userMessage : String) :
    Option (List Turn) × WorkerState × List WMsg :=
  if st.initialized = false then
    (none, st, [.error "Model not initialized"])
  else
    (some (finalMessages st.messageHistory userMessage),
     { st with currentAbort := some false }, [])

/-- A whole `generateResponse` call: entry, then (when the engine was invoked)
the generation body driven by the event/outcome oracle. -/
def generateResponseCall (st : WorkerState) (userMessage : String)
    (evs : List GenEvent) (oc : EngineOutcome) : WorkerState × List WMsg :=
  match generateEntry st userMessage with
  | (none, st2, msgs) => (st2, msgs)
  | (some _, st2, msgs) =>
      let r := generationRun st2.messageHistory userMessage false evs oc
      ({ st2 with messageHistory := r.1, currentAbort := some r.2.2 },
       msgs ++ r.2.1)

/-- modelWorker.ts lines 265-272, the `stop` case: abort the current
controller when one exists, then always post `stopped`. -/
def handleStop (st : WorkerState) : WorkerState × List WMsg :=
  match st.currentAbort with
  | none => (st, [.stopped])
  | some _ => ({ st with currentAbort := some true }, [.stopped])

/-- modelWorker.ts lines 260-263, the `reset` case. -/
def handleReset (st : WorkerState) : WorkerState × List WMsg :=
  ({ st with messageHistory := [] }, [.resetComplete])

/-- A history-affecting session operation: a successful commit with the two
texts, or a reset. -/
inductive SessionOp
  | commit (userMessage generatedText : String)
  | reset
deriving DecidableEq

/-- Effect of one session operation on the stored history. -/
def sessionStep (h : List Turn) : SessionOp → List Turn
  | .commit um g => commitStep h um g
  | .reset => []

/-- History reached from the empty history by a sequence of operations. -/
def runOps (ops : List SessionOp) : List Turn :=
  ops.foldl sessionStep []

/-- Invariant H1: a non-empty history begins with a user turn. -/
def histH1 : List Turn → Bool
  | [] => true
  | t :: _ => t.role = .user

/-- Invariant H2: no two consecutive turns share a role. -/
def histH2 : List Turn → Bool
  | [] => true
  | [_] => true
  | t1 :: t2 :: ts => (t1.role ≠ t2.role : Bool) && histH2 (t2 :: ts)

/-- Strict alternation starting with role `r` (positional well-formedness). -/
def altFrom (r : Role) : List Turn → Bool
  | [] => true
  | t :: ts => (t.role = r : Bool) && altFrom r.other ts

/-- The role expected `k` positions after one expecting `r`. -/
def roleAfter (r : Role) : Nat → Role
  | 0 => r
  | k + 1 => (roleAfter r k).other

/-- A DOM child of the chat container, in document order (chatManager.ts).
An `aiMsg` records whether the element currently carries the
`current-ai-message` id (the streaming target). -/
inductive Entry
  | userMsg (s : String)
  | aiMsg (hasId : Bool) (s : String)
  | errorMsg (s : String)
  | stoppedNote
deriving DecidableEq

/-- `getElementById` + `textContent += token`: append to the first element
that carries the id, when one exists. -/
def appendFirstWithId (t : String) : List Entry → List Entry
  | [] => []
  | .aiMsg true s :: rest => .aiMsg true (s ++ t) :: rest
  | e :: rest => e :: appendFirstWithId t rest

/-- `removeAttribute('id')` on the first element carrying the id. -/
def removeFirstId : List Entry → List Entry
  | [] => []
  | .aiMsg true s :: rest => .aiMsg false s :: rest
  | e :: rest => e :: removeFirstId rest

/-- Status bar text set by `resetUI` (emoji decoration omitted). -/
def defaultStatus : String := "Universal Browser Support + Transformers.js + Web Workers"

/-- Status bar text set when a generation is dispatched. -/
def thinkingStatus : String := "Thinking..."

/-- Status bar text set on each received token. -/
def generatingStatus : String := "Generating response..."

/-- ChatManager state: `worker` non-null flag, the two booleans, the timer
interval non-null flag, the chat DOM, and the status bar text. -/
structure ChatState where
  worker : Bool
  isGenerating : Bool
  shouldStop : Bool
  timerOn : Bool
  dom : List Entry
  status : String
deriving DecidableEq

/-- chatManager.ts lines 72-95 with `startTimer` (lines 146-168) inlined:
silently return when the worker is null or a generation is in flight,
otherwise set the flags, clear `shouldStop`, start the timer, append a fresh
streaming container and dispatch the `generate` request. -/
def chatGenerate (cm : ChatState) (m : String) : ChatState × List CMsg :=
  if cm.worker = false || cm.isGenerating then (cm, [])
  else
    ({ cm with isGenerating := true, shouldStop := false, timerOn := true,
               dom := cm.dom ++ [.aiMsg true ""], status := thinkingStatus },
     [.generate m])

/-- chatManager.ts lines 97-111: append the fragment to the current streaming
element when present and update the status. -/
def appendToCurrentMessage (cm : ChatState) (t : String) : ChatState :=
  { cm with dom := appendFirstWithId t cm.dom, status := generatingStatus }

/-- chatManager.ts lines 113-127: return unchanged when `shouldStop` is set;
otherwise clear `isGenerating`, stop the timer, drop the streaming id and
reset the UI. -/
def completeGeneration (cm : ChatState) : ChatState :=
  if cm.shouldStop then cm
  else
    { cm with isGenerating := false, timerOn := false,
              dom := removeFirstId cm.dom, status := defaultStatus }

/-- chatManager.ts lines 129-144: clear `isGenerating`, stop the timer,
append an error entry and reset the UI (the streaming id is not removed). -/
def handleError (cm : ChatState) (e : String) : ChatState :=
  { cm with isGenerating := false, timerOn := false,
            dom := cm.dom ++ [.errorMsg e], status := defaultStatus }

/-- chatManager.ts lines 186-207: set `shouldStop`, clear `isGenerating`,
stop the timer, post `stop` to the worker, append the stopped-by-user
indicator and reset the UI. -/
def stopGeneration (cm : ChatState) : ChatState × List CMsg :=
  ({ cm with shouldStop := true, isGenerating := false, timerOn := false,
             dom := cm.dom ++ [.stoppedNote], status := defaultStatus },
   [.stop])

/-- chatManager.ts lines 28-57, the `worker.onmessage` switch.  `ready` and
`progress` only drive the init promise and the progress callback; `stopped`
and `reset_complete` have no case and fall through the switch unchanged. -/
def handleMsg (cm : ChatState) : WMsg → ChatState
  | .token t => appendToCurrentMessage cm t
  | .complete => completeGeneration cm
  | .error e => handleError cm e
  | _ => cm

/-! ## Alternation algebra -/

lemma Role.other_other (r : Role) : r.other.other = r := by
  cases r <;> rfl

lemma roleAfter_succ (r : Role) (k : Nat) : roleAfter r (k + 1) = roleAfter r.other k := by
  induction k with
  | zero => rfl
  | succ k ih => rw [roleAfter, ih, roleAfter]

lemma roleAfter_two_mul (r : Role) (j : Nat) : roleAfter r (2 * j) = r := by
  induction j with
  | zero => rfl
  | succ j ih =>
      have h2 : 2 * (j + 1) = 2 * j + 1 + 1 := by omega
      rw [h2, roleAfter, roleAfter, ih, Role.other_other]

lemma roleAfter_of_even (r : Role) (k : Nat) (h : k % 2 = 0) : roleAfter r k = r := by
  obtain ⟨j, rfl⟩ : ∃ j, k = 2 * j := ⟨k / 2, by omega⟩
  exact roleAfter_two_mul r j

lemma altFrom_append (xs ys : List Turn) (r : Role) :
    altFrom r (xs ++ ys) = (altFrom r xs && altFrom (roleAfter r xs.length) ys) := by
  induction xs generalizing r with
  | nil => simp [altFrom, roleAfter]
  | cons t ts ih =>
      simp [altFrom, ih r.other, roleAfter_succ, Bool.and_assoc]

lemma altFrom_drop (k : Nat) (l : List Turn) (r : Role) (h : altFrom r l = true) :
    altFrom (roleAfter r k) (l.drop k) = true := by
  induction k generalizing l r with
  | zero => simpa using h
  | succ k ih =>
      cases l with
      | nil => simp [altFrom]
      | cons t ts =>
          simp [altFrom] at h
          rw [List.drop_succ_cons, roleAfter_succ]
          exact ih ts r.other h.2

lemma altFrom_histH1 (l : List Turn) (h : altFrom .user l = true) : histH1 l = true := by
  cases l with
  | nil => rfl
  | cons t ts =>
      simp [altFrom] at h
      simp [histH1, h.1]

lemma altFrom_histH2 (r : Role) (l : List Turn) (h : altFrom r l = true) : histH2 l = true := by
  induction l generalizing r with
  | nil => rfl
  | cons t ts ih =>
      cases ts with
      | nil => rfl
      | cons t2 ts2 =>
          simp [altFrom] at h
          obtain ⟨h1, h2, h3⟩ := h
          have hne : t.role ≠ t2.role := by
            rw [h1, h2]; cases r <;> simp [Role.other]
          have hrec : histH2 (t2 :: ts2) = true := ih r.other (by simp [altFrom, h2, h3])
          simp [histH2, hne, hrec]

lemma altFrom_takeLast (n : Nat) (l : List Turn) (hn : n % 2 = 0)
    (h : altFrom .user l = true) (hl : l.length % 2 = 0) :
    altFrom .user (takeLast n l) = true := by
  have hk : (l.length - n) % 2 = 0 := by omega
  have hd := altFrom_drop (l.length - n) l .user h
  rwa [roleAfter_of_even .user _ hk] at hd

/-! ## Validation and commit lemmas -/

lemma expectedRole_succ (i : Nat) : expectedRole (i + 1) = (expectedRole i).other := by
  rcases Nat.mod_two_eq_zero_or_one i with h | h <;>
    simp [expectedRole, h, Nat.add_mod, Role.other]

lemma validateFrom_id (l : List Turn) :
    ∀ i, altFrom (expectedRole i) l = true → validateFrom i l = l := by
  induction l with
  | nil => intro i _; rfl
  | cons t ts ih =>
      intro i h
      simp [altFrom] at h
      have h2 : altFrom (expectedRole (i + 1)) ts = true := by
        rw [expectedRole_succ]; exact h.2
      simp [validateFrom, h.1, ih (i + 1) h2]

lemma lastIsUser_append_user (l : List Turn) (m : String) :
    lastIsUser (l ++ [⟨.user, m⟩]) = true := by
  simp [lastIsUser, List.getLast?_concat]

lemma buildMessages_wf_alt (h : List Turn) (m : String)
    (h1 : altFrom .user h = true) (h2 : h.length % 2 = 0) :
    altFrom .user (buildMessages h m) = true := by
  have h6 : altFrom .user (takeLast 6 h) = true :=
    altFrom_takeLast 6 h (by norm_num) h1 h2
  have hlen : (takeLast 6 h).length % 2 = 0 := by
    simp [takeLast, List.length_drop]; omega
  rw [buildMessages, altFrom_append, roleAfter_of_even .user _ hlen, h6]
  rfl

lemma finalMessages_wf_eq (h : List Turn) (m : String)
    (h1 : altFrom .user h = true) (h2 : h.length % 2 = 0) :
    finalMessages h m = takeLast 6 h ++ [⟨.user, m⟩] := by
  have ha : altFrom .user (buildMessages h m) = true := buildMessages_wf_alt h m h1 h2
  have hv : validMessages (buildMessages h m) = buildMessages h m :=
    validateFrom_id _ 0 ha
  have hl : lastIsUser (buildMessages h m) = true := by
    rw [buildMessages]; exact lastIsUser_append_user _ m
  simp only [finalMessages]
  rw [hv, hl]
  simp [buildMessages]

lemma finalMessages_wf_alt (h : List Turn) (m : String)
    (h1 : altFrom .user h = true) (h2 : h.length % 2 = 0) :
    altFrom .user (finalMessages h m) = true := by
  rw [finalMessages_wf_eq h m h1 h2, ← buildMessages]
  exact buildMessages_wf_alt h m h1 h2

lemma commitStep_wf (h : List Turn) (um g : String)
    (h1 : altFrom .user h = true) (h2 : h.length % 2 = 0) :
    altFrom .user (commitStep h um g) = true
      ∧ (commitStep h um g).length % 2 = 0
      ∧ (commitStep h um g).length ≤ 10 := by
  have hpair : altFrom .user (h ++ [⟨.user, um⟩, ⟨.assistant, g⟩]) = true := by
    rw [altFrom_append, roleAfter_of_even .user _ h2, h1]
    rfl
  have hlen : (h ++ [⟨.user, um⟩, ⟨.assistant, g⟩] : List Turn).length = h.length + 2 := by
    simp
  by_cases hc : (h ++ [⟨.user, um⟩, ⟨.assistant, g⟩] : List Turn).length > 10
  · have halt : altFrom .user (takeLast 10 (h ++ [⟨.user, um⟩, ⟨.assistant, g⟩])) = true :=
      altFrom_takeLast 10 _ (by norm_num) hpair (by omega)
    have hl : (takeLast 10 (h ++ [⟨.user, um⟩, ⟨.assistant, g⟩]) : List Turn).length = 10 := by
      simp [takeLast, List.length_drop]; omega
    simp only [commitStep, hc, if_true, if_pos hc]
    exact ⟨halt, by omega, by omega⟩
  · simp only [commitStep, if_neg hc]
    exact ⟨hpair, by omega, by omega⟩

lemma sessionStep_wf (h : List Turn) (op : SessionOp)
    (h1 : altFrom .user h = true) (h2 : h.length % 2 = 0) (_h3 : h.length ≤ 10) :
    altFrom .user (sessionStep h op) = true
      ∧ (sessionStep h op).length % 2 = 0
      ∧ (sessionStep h op).length ≤ 10 := by
  cases op with
  | commit um g => exact commitStep_wf h um g h1 h2
  | reset => exact ⟨rfl, rfl, by simp [sessionStep]⟩

lemma foldl_sessionStep_wf (ops : List SessionOp) :
    ∀ h : List Turn, altFrom .user h = true → h.length % 2 = 0 → h.length ≤ 10 →
      altFrom .user (ops.foldl sessionStep h) = true
        ∧ (ops.foldl sessionStep h).length % 2 = 0
        ∧ (ops.foldl sessionStep h).length ≤ 10 := by
  induction ops with
  | nil => intro h h1 h2 h3; exact ⟨h1, h2, h3⟩
  | cons op rest ih =>
      intro h h1 h2 h3
      obtain ⟨g1, g2, g3⟩ := sessionStep_wf h op h1 h2 h3
      exact ih (sessionStep h op) g1 g2 g3

/-! ## Generation-run lemmas -/

lemma generationRun_msgs_ne_nil (evs : List GenEvent) (hist : List Turn) (um : String)
    (ab : Bool) (oc : EngineOutcome) :
    (generationRun hist um ab evs oc).2.1 ≠ [] := by
  induction evs generalizing ab with
  | nil => cases oc <;> simp [generationRun]
  | cons ev rest ih =>
      cases ev with
      | frag s => cases ab <;> simp [generationRun]
      | stopMsg => simp [generationRun]

lemma generationRun_hist_of_error_last (evs : List GenEvent) (hist : List Turn)
    (um : String) (ab : Bool) (oc : EngineOutcome) (e : String)
    (h : (generationRun hist um ab evs oc).2.1.getLast? = some (.error e)) :
    (generationRun hist um ab evs oc).1 = hist := by
  induction evs generalizing ab with
  | nil =>
      cases oc with
      | success t => simp [generationRun] at h
      | failure e2 => simp [generationRun]
  | cons ev rest ih =>
      cases ev with
      | frag s =>
          cases ab with
          | true => simp [generationRun]
          | false =>
              have hne := generationRun_msgs_ne_nil rest hist um false oc
              obtain ⟨m, ms, hms⟩ := List.exists_cons_of_ne_nil hne
              simp only [generationRun, Bool.false_eq_true, if_false] at h ⊢
              rw [hms, List.getLast?_cons_cons, ← hms] at h
              exact ih false h
      | stopMsg =>
          have hne := generationRun_msgs_ne_nil rest hist um true oc
          obtain ⟨m, ms, hms⟩ := List.exists_cons_of_ne_nil hne
          simp only [generationRun] at h ⊢
          rw [hms, List.getLast?_cons_cons, ← hms] at h
          exact ih true h

lemma generationRun_stop_then_frag (hist : List Turn) (um : String)
    (pre : List String) (b : String) (rest : List GenEvent) (oc : EngineOutcome) :
    generationRun hist um false (pre.map .frag ++ .stopMsg :: .frag b :: rest) oc
      = (hist, pre.map WMsg.token ++ [.stopped, .error abortText], true) := by
  induction pre with
  | nil => simp [generationRun]
  | cons p ps ih => simp [generationRun, ih]

lemma generationRun_no_stop_success (hist : List Turn) (um : String)
    (frags : List String) (t : String) :
    generationRun hist um false (frags.map .frag) (.success t)
      = (commitStep hist um (if t = "" then apologyText else t),
         frags.map WMsg.token ++ [.complete], false) := by
  induction frags with
  | nil => simp [generationRun]
  | cons p ps ih => simp [generationRun, ih]

lemma generationRun_no_stop_failure (hist : List Turn) (um : String)
    (frags : List String) (e : String) :
    generationRun hist um false (frags.map .frag) (.failure e)
      = (hist, frags.map WMsg.token ++ [.error e], false) := by
  induction frags with
  | nil => simp [generationRun]
  | cons p ps ih => simp [generationRun, ih]

/-! ## Claim theorems -/

/-- Claim C1: for every generate call that terminates in an error or in
cancellation (the engine call raises, including an abort raised from the
per-fragment callback; in both cases the catch block makes the last posted
message an `error` event), the history after the call equals the history
before the call; the user/assistant pair is appended only on the
successful-completion path. -/
theorem c1_no_partial_commit (st : WorkerState) (um : String) (evs : List GenEvent)
    (oc : EngineOutcome) (e : String)
    (h : (generateResponseCall st um evs oc).2.getLast? = some (.error e)) :
    (generateResponseCall st um evs oc).1.messageHistory = st.messageHistory := by
  cases hi : st.initialized with
  | false => simp [generateResponseCall, generateEntry, hi]
  | true =>
      simp [generateResponseCall, generateEntry, hi] at h ⊢
      exact generationRun_hist_of_error_last evs st.messageHistory um false oc e h

/-- Witness for C1: a concrete call aborted mid-stream leaves the two-turn
history untouched. -/
theorem c1_no_partial_commit_witness :
    ((generateResponseCall ⟨true, [⟨.user, "p"⟩, ⟨.assistant, "q"⟩], none⟩ "hi"
        [.frag "x", .stopMsg, .frag "y"] (.success "z")).2.getLast?
      = some (.error abortText))
    ∧ (generateResponseCall ⟨true, [⟨.user, "p"⟩, ⟨.assistant, "q"⟩], none⟩ "hi"
        [.frag "x", .stopMsg, .frag "y"] (.success "z")).1.messageHistory
      = [⟨.user, "p"⟩, ⟨.assistant, "q"⟩] :=
  ⟨rfl, c1_no_partial_commit _ "hi" _ _ abortText rfl⟩

/-- Claim C2: starting from the empty history, after any sequence of
successful commits and resets the history satisfies H1 (non-empty histories
begin with a user turn), H2 (no two consecutive turns share a role), and its
length never exceeds the retention cap of 10 turns. -/
theorem c2_history_invariants (ops : List SessionOp) :
    histH1 (runOps ops) = true ∧ histH2 (runOps ops) = true
      ∧ (runOps ops).length ≤ 10 := by
  obtain ⟨g1, g2, g3⟩ := foldl_sessionStep_wf ops [] rfl rfl (by simp)
  exact ⟨altFrom_histH1 _ g1, altFrom_histH2 .user _ g1, g3⟩

/-- Claim C3, counterexample: in a state representing an in-flight generation
(model initialized, a live unaborted controller), a new generate request is
not rejected: the synchronous entry emits no error event (third component
`[]`), invokes the engine with a context (first component `some _`), and in
the variant where the in-flight generation had just been aborted the entry
replaces the controller with a fresh unaborted one, clobbering the pending
abort signal of the in-flight request. -/
theorem c3_single_flight_counterexample :
    (generateEntry ⟨true, [], some false⟩ "hi").2.2 = []
    ∧ (generateEntry ⟨true, [], some false⟩ "hi").1 = some [⟨.user, "hi"⟩]
    ∧ (generateEntry ⟨true, [], some true⟩ "m").2.1.currentAbort = some false :=
  ⟨rfl, rfl, rfl⟩

/-- Claim C3, amended: the Session applies no single-flight guard at all.
Whenever the model is initialized, a generate request proceeds to invoke the
engine with the validated context and installs a fresh unaborted controller,
regardless of the current controller (hence regardless of any in-flight
generation); no error event is emitted.  Single-flight is enforced only
client-side: the Controller silently ignores a submission while
`isGenerating` is set, emitting nothing. -/
theorem c3_single_flight_amended (st : WorkerState) (um : String)
    (cm : ChatState) (m : String)
    (hi : st.initialized = true) (hg : cm.isGenerating = true) :
    generateEntry st um
      = (some (finalMessages st.messageHistory um),
         { st with currentAbort := some false }, [])
    ∧ chatGenerate cm m = (cm, []) := by
  constructor
  · simp [generateEntry, hi]
  · simp [chatGenerate, hg]

/-- Witness for C3 (amended) at concrete worker and controller states. -/
theorem c3_single_flight_amended_witness :
    generateEntry ⟨true, [], some false⟩ "hi"
      = (some [⟨.user, "hi"⟩], ⟨true, [], some false⟩, [])
    ∧ chatGenerate ⟨true, true, false, true, [], ""⟩ "m"
      = (⟨true, true, false, true, [], ""⟩, []) :=
  c3_single_flight_amended ⟨true, [], some false⟩ "hi"
    ⟨true, true, false, true, [], ""⟩ "m" rfl rfl

/-- Claim C4, counterexample: the validation is positional (user at even
index, assistant at odd index), not based on the previous kept turn, so a
corrupted stored history can make it emit a sequence violating H2 (two
consecutive user turns, first input) or H1 (leading assistant turn, second
input), refuting the claim that the context-assembly validation always
produces a sequence satisfying H1 and H2. -/
theorem c4_validation_counterexample :
    finalMessages [⟨.user, "a"⟩, ⟨.user, "b"⟩] "c" = [⟨.user, "a"⟩, ⟨.user, "c"⟩]
    ∧ histH2 (finalMessages [⟨.user, "a"⟩, ⟨.user, "b"⟩] "c") = false
    ∧ finalMessages [⟨.assistant, "x"⟩, ⟨.assistant, "y"⟩] "hi"
        = [⟨.assistant, "y"⟩, ⟨.user, "hi"⟩]
    ∧ histH1 (finalMessages [⟨.assistant, "x"⟩, ⟨.assistant, "y"⟩] "hi") = false :=
  ⟨rfl, rfl, rfl, rfl⟩

/-- Claim C4, amended: the validation keeps exactly the candidates whose role
matches the parity of their original index.  For every candidate sequence the
result ends in a user turn, and the result is exactly the single new user
message when the validation pass yields an empty sequence or one not ending
in a user turn; the result satisfies H1 and H2 whenever the stored history is
well-formed (user-first strictly alternating, even length), but not for
arbitrary corrupted histories. -/
theorem c4_validation_amended (h : List Turn) (m : String) :
    lastIsUser (finalMessages h m) = true
    ∧ (lastIsUser (validMessages (buildMessages h m)) = false →
        finalMessages h m = [⟨.user, m⟩])
    ∧ (altFrom .user h = true → h.length % 2 = 0 →
        histH1 (finalMessages h m) = true ∧ histH2 (finalMessages h m) = true) := by
  refine ⟨?_, ?_, ?_⟩
  · simp only [finalMessages]
    split
    · next hc => exact hc
    · next hc => rfl
  · intro hf
    simp [finalMessages, hf]
  · intro h1 h2
    have halt := finalMessages_wf_alt h m h1 h2
    exact ⟨altFrom_histH1 _ halt, altFrom_histH2 .user _ halt⟩

/-- Witness for C4 (amended) on a concrete well-formed history. -/
theorem c4_validation_amended_witness :
    lastIsUser (finalMessages [⟨.user, "p"⟩, ⟨.assistant, "q"⟩] "hi") = true
    ∧ histH1 (finalMessages [⟨.user, "p"⟩, ⟨.assistant, "q"⟩] "hi") = true
    ∧ histH2 (finalMessages [⟨.user, "p"⟩, ⟨.assistant, "q"⟩] "hi") = true :=
  ⟨(c4_validation_amended [⟨.user, "p"⟩, ⟨.assistant, "q"⟩] "hi").1,
   ((c4_validation_amended [⟨.user, "p"⟩, ⟨.assistant, "q"⟩] "hi").2.2 rfl rfl).1,
   ((c4_validation_amended [⟨.user, "p"⟩, ⟨.assistant, "q"⟩] "hi").2.2 rfl rfl).2⟩

/-- An eight-turn well-formed history used as a concrete input. -/
def h8ex : List Turn :=
  [⟨.user, "u1"⟩, ⟨.assistant, "a1"⟩, ⟨.user, "u2"⟩, ⟨.assistant, "a2"⟩,
   ⟨.user, "u3"⟩, ⟨.assistant, "a3"⟩, ⟨.user, "u4"⟩, ⟨.assistant, "a4"⟩]

/-- Claim C5, counterexample: on an eight-turn committed history the context
submitted to the engine is the last 6 turns plus the new user message (7
elements), not the last `W = 10` retention-window turns plus the message (9
elements): the context window (6) and the retention cap (10) are different
constants in the code. -/
theorem c5_context_window_counterexample :
    finalMessages h8ex "hi" = takeLast 6 h8ex ++ [⟨.user, "hi"⟩]
    ∧ finalMessages h8ex "hi" ≠ takeLast 10 h8ex ++ [⟨.user, "hi"⟩] :=
  ⟨rfl, by decide⟩

/-- Claim C5, amended: for a well-formed history the context submitted to the
engine consists of the most recent 6 committed turns (3 exchanges) — not the
10-turn retention window — with the new user message appended as the final
element. -/
theorem c5_context_window_amended (h : List Turn) (m : String)
    (h1 : altFrom .user h = true) (h2 : h.length % 2 = 0) :
    finalMessages h m = takeLast 6 h ++ [⟨.user, m⟩] :=
  finalMessages_wf_eq h m h1 h2

/-- Witness for C5 (amended) on the concrete eight-turn history. -/
theorem c5_context_window_amended_witness :
    finalMessages h8ex "hi" = takeLast 6 h8ex ++ [⟨.user, "hi"⟩] :=
  c5_context_window_amended h8ex "hi" rfl rfl

/-- Claim C6, counterexample: the commit step appends the user turn even when
the current last element already has role user, and no re-validation pass
removes the violation: committing onto the corrupted history `[user "a"]`
yields consecutive user turns, so history after a commit can violate H2,
refuting both the conditional-append and the defensive second pass. -/
theorem c6_commit_counterexample :
    commitStep [⟨.user, "a"⟩] "b" "r"
      = [⟨.user, "a"⟩, ⟨.user, "b"⟩, ⟨.assistant, "r"⟩]
    ∧ histH2 (commitStep [⟨.user, "a"⟩] "b" "r") = false :=
  ⟨rfl, rfl⟩

/-- Claim C6, amended: the commit step unconditionally appends the
`{user, newMessage}` and `{assistant, generatedText}` turns and truncates to
the most recent 10 turns; it performs no alternation guard relative to the
current last element and no re-validation pass. -/
theorem c6_commit_amended (h : List Turn) (um g : String) :
    commitStep h um g = takeLast 10 (h ++ [⟨.user, um⟩, ⟨.assistant, g⟩]) := by
  simp only [commitStep]
  split
  · rfl
  · next hc =>
      have h0 : (h ++ [⟨.user, um⟩, ⟨.assistant, g⟩] : List Turn).length - 10 = 0 := by
        simp only [List.length_append, List.length_cons, List.length_nil] at hc ⊢
        omega
      rw [takeLast, h0, List.drop_zero]

/-- Claim C7, counterexample: for a generation stopped mid-stream (one
fragment, then a stop message, then one more fragment callback) the Session
posts `token`, then `stopped` (from the stop handler, immediately), then
`error` (from the catch block when the aborted engine call unwinds): two
terminal events, with `error` — not `stopped` — last, refuting the
exactly-one-terminal-event claim and the scenario in which the remaining
fragments arrive before a single final `stopped`. -/
theorem c7_terminal_event_counterexample :
    (generationRun [] "hi" false [.frag "a", .stopMsg, .frag "b"] (.success "z")).2.1
      = [.token "a", .stopped, .error abortText]
    ∧ ((generationRun [] "hi" false [.frag "a", .stopMsg, .frag "b"]
          (.success "z")).2.1.filter isTerminal).length = 2
    ∧ (generationRun [] "hi" false [.frag "a", .stopMsg, .frag "b"]
          (.success "z")).2.1.getLast? = some (.error abortText) :=
  ⟨rfl, rfl, rfl⟩

/-- Claim C7, amended: a call that runs to completion or engine failure with
no stop request emits its fragments in order followed by exactly one terminal
event (`complete` or `error`) last; but when a stop is processed mid-flight
and at least one further fragment callback occurs, the Controller receives
the pre-stop `token` events, then `stopped` immediately at stop-processing
time (no further tokens are forwarded after the abort flag is set), then a
final `error` event when the aborted engine call unwinds — two terminal
events, with `error` last, and the history is left unchanged. -/
theorem c7_terminal_event_amended (hist : List Turn) (um : String)
    (pre : List String) (b : String) (rest : List GenEvent) (oc : EngineOutcome)
    (frags : List String) (t e : String) :
    generationRun hist um false (pre.map .frag ++ .stopMsg :: .frag b :: rest) oc
      = (hist, pre.map WMsg.token ++ [.stopped, .error abortText], true)
    ∧ generationRun hist um false (frags.map .frag) (.success t)
      = (commitStep hist um (if t = "" then apologyText else t),
         frags.map WMsg.token ++ [.complete], false)
    ∧ generationRun hist um false (frags.map .frag) (.failure e)
      = (hist, frags.map WMsg.token ++ [.error e], false) :=
  ⟨generationRun_stop_then_frag hist um pre b rest oc,
   generationRun_no_stop_success hist um frags t,
   generationRun_no_stop_failure hist um frags e⟩

/-- Claim C8, counterexample: a stop request with no generation in flight is
not free of observable effects.  In the initial state (no controller ever
created) it still posts a `stopped` event; and after a completed generation
(a reachable state, second conjunct, in which no generate call is pending)
the controller reference is still set, so a stop request aborts the stale
controller — it does set a cancellation signal. -/
theorem c8_stop_idle_counterexample :
    handleStop ⟨true, [], none⟩ = (⟨true, [], none⟩, [.stopped])
    ∧ (generateResponseCall ⟨true, [], none⟩ "hi" [] (.success "ok")).1
        = ⟨true, [⟨.user, "hi"⟩, ⟨.assistant, "ok"⟩], some false⟩
    ∧ (handleStop ⟨true, [⟨.user, "hi"⟩, ⟨.assistant, "ok"⟩], some false⟩).1.currentAbort
        = some true :=
  ⟨rfl, rfl, rfl⟩

/-- Claim C8, amended: the stop handler always posts exactly one `stopped`
event, sets the abort signal of the current controller when one exists
(including a stale controller left over from a finished generation, since the
reference is never cleared), never touches the history, and is idempotent on
the worker state. -/
theorem c8_stop_amended (st : WorkerState) :
    handleStop st
      = ({ st with currentAbort := st.currentAbort.map fun _ => true }, [.stopped])
    ∧ (handleStop (handleStop st).1).1 = (handleStop st).1
    ∧ (handleStop st).1.messageHistory = st.messageHistory := by
  cases st with
  | mk ini hist ab => cases ab <;> simp [handleStop]

/-- A concrete controller state mid-generation, used as counterexample input. -/
def cmGen : ChatState :=
  ⟨true, true, false, true, [.userMsg "q", .aiMsg true "partial"], generatingStatus⟩

/-- Claim C9, counterexample: the Controller's stop request itself sets
`isGenerating` to false (second conjunct), and the `stopped` event from the
Session is ignored by the Controller's message handler (third conjunct — no
switch case exists for it), refuting the claim that `isGenerating` is left
untouched by the stop request and becomes false only upon receiving
`stopped`. -/
theorem c9_stop_flag_counterexample :
    cmGen.isGenerating = true
    ∧ (stopGeneration cmGen).1.isGenerating = false
    ∧ handleMsg (stopGeneration cmGen).1 .stopped = (stopGeneration cmGen).1 :=
  ⟨rfl, rfl, rfl⟩

/-- Claim C9, amended: the Controller's stop request dispatches the `stop`
message and immediately sets `shouldStop`, clears `isGenerating`, stops the
timer, and renders the stopped-by-user indicator at request time; the
`stopped` event later received from the Session is ignored (the message
handler has no case for it), and already-streamed fragments are kept (the
previous DOM entries survive unchanged as a sublist). -/
theorem c9_stop_flag_amended (cm : ChatState) :
    stopGeneration cm
      = ({ cm with shouldStop := true, isGenerating := false, timerOn := false,
                   dom := cm.dom ++ [.stoppedNote], status := defaultStatus }, [.stop])
    ∧ handleMsg cm .stopped = cm
    ∧ cm.dom.Sublist (stopGeneration cm).1.dom :=
  ⟨rfl, rfl, List.sublist_append_left cm.dom [.stoppedNote]⟩

/-- Claim C10: once `shouldStop` is set by the Controller's stop action, a
subsequently received `complete` event is ignored — the completion handler
returns immediately, leaving the whole Controller state (including
`isGenerating`, the timer flag and the current message id) unchanged; no
worker event clears the flag, which is reset only when the next generation
is started. -/
theorem c10_ignore_complete_after_stop (cm cm2 : ChatState) (m : String)
    (hs : cm.shouldStop = true) (hw : cm2.worker = true)
    (hg : cm2.isGenerating = false) :
    handleMsg cm .complete = cm
    ∧ (∀ e : WMsg, (handleMsg cm e).shouldStop = true)
    ∧ (chatGenerate cm2 m).1.shouldStop = false := by
  refine ⟨?_, ?_, ?_⟩
  · simp [handleMsg, completeGeneration, hs]
  · intro e
    cases e <;>
      simp [handleMsg, completeGeneration, appendToCurrentMessage, handleError, hs]
  · simp [chatGenerate, hw, hg]

/-- Witness for C10 at concrete controller states. -/
theorem c10_ignore_complete_after_stop_witness :
    handleMsg ⟨true, false, true, false, [], ""⟩ .complete
      = ⟨true, false, true, false, [], ""⟩
    ∧ (∀ e : WMsg, (handleMsg ⟨true, false, true, false, [], ""⟩ e).shouldStop = true)
    ∧ (chatGenerate ⟨true, false, false, false, [], ""⟩ "m").1.shouldStop = false :=
  c10_ignore_complete_after_stop ⟨true, false, true, false, [], ""⟩
    ⟨true, false, false, false, [], ""⟩ "m" rfl rfl rfl

end GemmaChat
